import Mathlib

/-!
Shallow embedding of the core of `jdx/mise-java` (a JVM-distribution
metadata aggregator written in Rust) together with proofs checking the
natural-language specification against the code.

Each Rust function that a claim depends on is translated into an
executable Lean definition; Rust `String` is modelled by Lean `String`
(`List Char` where induction is needed), Rust `Option` by `Option`,
fallible results by `Except`.  SQL statements executed by the repository
are modelled by explicit state passing over a list of rows, with SQL
three-valued `!=` on nullable columns made explicit.
-/

/- ## String primitives

Lean's built-in `String.startsWith`, `String.drop`, `String.splitOn` and
`String.le` are implemented on UTF-8 byte positions and do not reduce
inside the kernel, so the Rust string operations are modelled on the
underlying character lists instead.  On every Unicode string these agree
with the Rust operations (`str::starts_with`, `str::strip_prefix` with a
one-character pattern, `str::split` with a `char` separator, and the
byte-lexicographic `Ord` of `String`, which coincides with scalar-value
order under UTF-8). -/

/-- Rust `str::starts_with(p)`. -/
def strStartsWith (s p : String) : Bool :=
  List.isPrefixOf p.data s.data

/-- Rust `str::strip_prefix` of a single-character pattern, applied after
`starts_with` succeeded: drop the first character. -/
def strDropOne (s : String) : String :=
  String.mk (s.data.drop 1)

/-- Substring search on character lists (Rust `str::contains(&str)`). -/
def listHasInfix (needle : List Char) : List Char → Bool
  | [] => List.isPrefixOf needle []
  | c :: rest => List.isPrefixOf needle (c :: rest) || listHasInfix needle rest

/-- Rust `str::contains(&str)`. -/
def strContainsStr (hay needle : String) : Bool :=
  listHasInfix needle.data hay.data

/-- Byte-lexicographic order on strings (Rust `impl Ord for String`),
expressed on scalar values, which UTF-8 byte order coincides with. -/
def lexLe : List Char → List Char → Bool
  | [], _ => true
  | _ :: _, [] => false
  | a :: as, b :: bs =>
      if a.val.toNat < b.val.toNat then true
      else if b.val.toNat < a.val.toNat then false
      else lexLe as bs

/-- Rust `String` order as a relation for sorting. -/
def strLe (a b : String) : Prop :=
  lexLe a.data b.data = true

instance : DecidableRel strLe := fun a b => by
  unfold strLe; infer_instance

/-- Rust `char::split(sep)`: splits at every separator occurrence, keeping
empty pieces; the empty string yields one empty piece. -/
def splitChar (sep : Char) : List Char → List (List Char)
  | [] => [[]]
  | c :: rest =>
      if c = sep then [] :: splitChar sep rest
      else
        match splitChar sep rest with
        | [] => [[c]]
        | h :: t => (c :: h) :: t

/-- Rust `[String]::join(sep)` / `String::intercalate` on character lists. -/
def joinChar (sep : Char) : List (List Char) → List Char
  | [] => []
  | [x] => x
  | x :: y :: t => x ++ sep :: joinChar sep (y :: t)

/-- Rust `str::split(',')` at the `String` level. -/
def splitComma (s : String) : List String :=
  (splitChar ',' s.data).map String.mk

/-- Rust `Vec<String>::join(",")` at the `String` level. -/
def joinComma (l : List String) : String :=
  String.mk (joinChar ',' (l.map String.data))

/- ## Artifact record: `JvmData` (src/jvm/mod.rs lines 8-25) -/

structure JvmData where
  architecture : String
  checksum : Option String
  checksum_url : Option String
  features : Option (List String)
  file_type : String
  filename : String
  image_type : String
  java_version : String
  jvm_impl : String
  os : String
  release_type : String
  size : Option Int
  url : String
  vendor : String
  version : String
deriving DecidableEq

/-- The serde_json value view of a single field: a `JvmData` serialized with
serde_json yields a string-to-value map in which `Option` fields appear as
`null` when absent and `features` appears as an array of strings. -/
inductive JsonVal where
  | str (s : String)
  | num (n : Int)
  | bool (b : Bool)
  | arr (l : List String)
  | null
deriving DecidableEq

/-- The field map produced by `serde_json::to_value(item)` in
`JvmData::matches` and `JvmData::map`: each of the fifteen struct fields is
present under its field name; any other key is absent. -/
def JvmData.props (r : JvmData) (key : String) : Option JsonVal :=
  match key with
  | "architecture" => some (JsonVal.str r.architecture)
  | "checksum" =>
      some (match r.checksum with
            | some s => JsonVal.str s
            | none => JsonVal.null)
  | "checksum_url" =>
      some (match r.checksum_url with
            | some s => JsonVal.str s
            | none => JsonVal.null)
  | "features" =>
      some (match r.features with
            | some l => JsonVal.arr l
            | none => JsonVal.null)
  | "file_type" => some (JsonVal.str r.file_type)
  | "filename" => some (JsonVal.str r.filename)
  | "image_type" => some (JsonVal.str r.image_type)
  | "java_version" => some (JsonVal.str r.java_version)
  | "jvm_impl" => some (JsonVal.str r.jvm_impl)
  | "os" => some (JsonVal.str r.os)
  | "release_type" => some (JsonVal.str r.release_type)
  | "size" =>
      some (match r.size with
            | some n => JsonVal.num n
            | none => JsonVal.null)
  | "url" => some (JsonVal.str r.url)
  | "vendor" => some (JsonVal.str r.vendor)
  | "version" => some (JsonVal.str r.version)
  | _ => none

/-- The positive filter values: those not starting with `!`
(src/jvm/mod.rs lines 69-72). -/
def positiveValues (values : List String) : List String :=
  values.filter (fun v => !(strStartsWith v ("!")))

/-- The negated filter values, with the `!` prefix stripped
(src/jvm/mod.rs lines 73-76). -/
def negativeValues (values : List String) : List String :=
  values.filterMap (fun v => if strStartsWith v ("!") then some (strDropOne v) else none)

/-- `JvmData::matches` (src/jvm/mod.rs lines 67-93).  For a present scalar
field the stored value must be contained in the positive list AND not
contained in the negated list; for an array field some positive must be a
member AND no negated value may be a member; `null` (absent optional
field) and unknown keys match trivially.  The `Number` branch models
`n.as_i64()` which always succeeds for the `i32`-ranged `size` field. -/
def JvmData.matches (item : JvmData) (key : String) (values : List String) : Bool :=
  let eqv := positiveValues values
  let neqv := negativeValues values
  match item.props key with
  | some (JsonVal.str s) => eqv.contains s && !(neqv.contains s)
  | some (JsonVal.num n) => eqv.contains (toString n) && !(neqv.contains (toString n))
  | some (JsonVal.bool b) => eqv.contains (toString b) && !(neqv.contains (toString b))
  | some (JsonVal.arr arr) =>
      (eqv.any (fun v => arr.contains v)) && !(neqv.any (fun v => arr.contains v))
  | some JsonVal.null => true
  | none => true

/-- `JvmData::filter` (src/jvm/mod.rs lines 44-54): the record passes iff it
matches every entry of the filter map; an empty filter map passes
everything.  The `HashMap` is modelled as a list of key/values pairs (the
loop is a conjunction, so iteration order is irrelevant). -/
def JvmData.filter (item : JvmData) (filters : List (String × List String)) : Bool :=
  if filters.isEmpty then true
  else filters.all (fun p => JvmData.matches item p.1 p.2)

/-- Modelled from the spec (section 4.8) for comparison with the code: per
field the record matches iff *(any positive match OR no positives) AND (no
negative match)*; scalars by string equality, sets by membership, absent
fields trivially. -/
def specFieldMatches (item : JvmData) (key : String) (values : List String) : Bool :=
  let eqv := positiveValues values
  let neqv := negativeValues values
  match item.props key with
  | some (JsonVal.str s) => (eqv.isEmpty || eqv.contains s) && !(neqv.contains s)
  | some (JsonVal.num n) =>
      (eqv.isEmpty || eqv.contains (toString n)) && !(neqv.contains (toString n))
  | some (JsonVal.bool b) =>
      (eqv.isEmpty || eqv.contains (toString b)) && !(neqv.contains (toString b))
  | some (JsonVal.arr arr) =>
      (eqv.isEmpty || eqv.any (fun v => arr.contains v)) && !(neqv.any (fun v => arr.contains v))
  | some JsonVal.null => true
  | none => true

/-- Modelled from the spec: the whole-record filter of section 4.8. -/
def specFilter (item : JvmData) (filters : List (String × List String)) : Bool :=
  filters.all (fun p => specFieldMatches item p.1 p.2)

/-- The per-field acceptance condition that the code actually implements,
written as a logical proposition: for a present, non-null field the stored
value must match SOME positive value (so an all-negative filter list
rejects every present value) and no negated value. -/
def codeFieldOk (item : JvmData) (key : String) (values : List String) : Prop :=
  match item.props key with
  | some (JsonVal.str s) =>
      (∃ v ∈ positiveValues values, v = s) ∧ ∀ v ∈ negativeValues values, v ≠ s
  | some (JsonVal.num n) =>
      (∃ v ∈ positiveValues values, v = toString n) ∧
        ∀ v ∈ negativeValues values, v ≠ toString n
  | some (JsonVal.bool b) =>
      (∃ v ∈ positiveValues values, v = toString b) ∧
        ∀ v ∈ negativeValues values, v ≠ toString b
  | some (JsonVal.arr arr) =>
      (∃ v ∈ positiveValues values, v ∈ arr) ∧ ∀ v ∈ negativeValues values, v ∉ arr
  | some JsonVal.null => True
  | none => True

/- ## Identity semantics (src/jvm/mod.rs lines 27-41, src/db/jvm_repository.rs line 74) -/

/-- `impl PartialEq for JvmData` (src/jvm/mod.rs lines 35-39): equality, and
hence deduplication in the `HashSet` accumulator, is by `url` alone. -/
def jvmDataEq (a b : JvmData) : Bool :=
  a.url == b.url

/-- The composite conflict key of the repository upsert:
`ON CONFLICT(vendor, version, os, architecture, image_type, file_type)`
(src/db/jvm_repository.rs line 74). -/
def compositeKey (r : JvmData) : String × String × String × String × String × String :=
  (r.vendor, r.version, r.os, r.architecture, r.image_type, r.file_type)

/- ## Normalizers (src/jvm/vendor/mod.rs lines 155-233) -/

/-- `normalize_architecture` (src/jvm/vendor/mod.rs lines 156-174). -/
def normalize_architecture (architecture : String) : String :=
  match architecture with
  | "amd64" | "x64" | "x86_64" | "x86-64" | "x86lx64" => "x86_64"
  | "x32" | "x86" | "x86_32" | "x86-32" | "i386" | "i586" | "i686" => "i686"
  | "aarch64" | "arm64" => "aarch64"
  | "arm32" | "armv7" | "arm" | "aarch32sf" => "arm32"
  | "arm32-vfp-hflt" | "aarch32hf" => "arm32-vfp-hflt"
  | "ppc" => "ppc32"
  | "ppc32hf" => "ppc32hf"
  | "ppc32spe" => "ppc32spe"
  | "ppc64" => "ppc64"
  | "ppc64le" => "ppc64le"
  | "s390" => "s390"
  | "s390x" => "s390x"
  | "sparcv9" => "sparc"
  | "riscv64" => "riscv64"
  | _ => "unknown-arch-" ++ architecture

/-- Rust `str::to_lowercase`, restricted to its ASCII action (every
vocabulary string compared against is ASCII). -/
def lowerAscii (s : String) : String :=
  String.mk (s.data.map Char.toLower)

/-- `normalize_os` (src/jvm/vendor/mod.rs lines 177-186); the fallback
interpolates the ORIGINAL string, not the lowercased one. -/
def normalize_os (os : String) : String :=
  match lowerAscii os with
  | "linux" | "alpine" | "alpine-linux" | "linux-musl" | "linux_musl" => "linux"
  | "mac" | "macos" | "macosx" | "osx" | "darwin" => "macosx"
  | "win" | "windows" => "windows"
  | "solaris" => "solaris"
  | "aix" => "aix"
  | _ => "unknown-os-" ++ os

/-- A valid optional-suffix group `([-+].+)?` of the version regexes: the
rest of the input either is empty or starts with `-` or `+` followed by at
least one character, none of which is a newline (regex `.` excludes
newlines). -/
def versionSuffixOk : List Char → Bool
  | [] => true
  | c :: rest => (c = '-' || c = '+') && !rest.isEmpty && rest.all (fun d => d ≠ '\n')

/-- `normalize_major` (src/jvm/vendor/mod.rs lines 205-217): when the input
matches `^([0-9]+)([-+].+)?$`, inject `.0.0` between the digits and the
suffix; otherwise return the input unchanged.  Since digits and `-`/`+`
are disjoint the regex decomposition is the unique digit-prefix split. -/
def normalize_major_list (version : List Char) : List Char :=
  if !(version.takeWhile Char.isDigit).isEmpty &&
      versionSuffixOk (version.dropWhile Char.isDigit) then
    version.takeWhile Char.isDigit ++ '.' :: '0' :: '.' :: '0' ::
      version.dropWhile Char.isDigit
  else version

/-- A character allowed inside the group `([0-9]+_?)+`. -/
def digitOrUnderscore (c : Char) : Bool :=
  c.isDigit || c = '_'

/-- Tail check for the regex group `([0-9]+_?)+`: every character a digit
or an underscore, and every underscore followed by a digit or the end. -/
def underlineTailOk : List Char → Bool
  | [] => true
  | '_' :: rest =>
      match rest with
      | [] => true
      | d :: _ => d.isDigit && underlineTailOk rest
  | c :: rest => c.isDigit && underlineTailOk rest

/-- Membership in the regex group `([0-9]+_?)+`: non-empty, starts with a
digit, every character a digit or underscore, and no two consecutive
underscores. -/
def underlineGroupOk : List Char → Bool
  | [] => false
  | c :: rest => c.isDigit && underlineTailOk rest

/-- `normalize_underline` (src/jvm/vendor/mod.rs lines 225-233): when the
input matches `^(([0-9]+_?)+)([-+].+)?$`, replace the underscores of the
numeric part by dots; otherwise return the input unchanged. -/
def normalize_underline_list (version : List Char) : List Char :=
  if underlineGroupOk (version.takeWhile digitOrUnderscore) &&
      versionSuffixOk (version.dropWhile digitOrUnderscore) then
    (version.takeWhile digitOrUnderscore).map (fun c => if c = '_' then '.' else c) ++
      version.dropWhile digitOrUnderscore
  else version

/-- `normalize_version` (src/jvm/vendor/mod.rs lines 194-197). -/
def normalize_version_list (version : List Char) : List Char :=
  normalize_underline_list (normalize_major_list version)

/-- `normalize_version` at the `String` level. -/
def normalize_version (version : String) : String :=
  String.mk (normalize_version_list version.data)

/- ## Per-vendor feature normalizers (claim C5) -/

/-- `normalize_features` of the JetBrains scraper
(src/jvm/vendor/jetbrains.rs lines 146-172): substring probes on the
lowercased asset name, pushed in program order (note `_fd` pushes `jcef`
before `fastdebug`); an empty collection becomes `none`. -/
def jetbrains_normalize_features (name : String) : Option (List String) :=
  let name := lowerAscii name
  let features : List String :=
    (if strContainsStr name ("_diz") then ["debug"] else []) ++
    (if strContainsStr name ("jcef") then ["jcef"] else []) ++
    (if strContainsStr name ("-fastdebug") then ["fastdebug"] else []) ++
    (if strContainsStr name ("_fd") then ["jcef", "fastdebug"] else []) ++
    (if strContainsStr name ("_ft") then ["freetype"] else []) ++
    (if strContainsStr name ("musl") then ["musl"] else [])
  if features.isEmpty then none else some features

/-- `normalize_features` of the Liberica scraper
(src/jvm/vendor/liberica.rs lines 170-198): fixed expansions for `full`
and `fx`, otherwise the non-empty `-`-separated pieces; the result is
sorted (`Vec::sort`, modelled by insertion sort, which produces the same
sorted list of strings); empty becomes `none`. -/
def libericaRawFeatures (input : String) : List String :=
  match input with
  | "full" => ["libericafx", "minimal-vm", "javafx"]
  | "fx" => ["javafx"]
  | _ => ((splitChar '-' input.data).map String.mk).filter (fun f => !f.isEmpty)

/-- The sort-and-guard tail of the Liberica `normalize_features`. -/
def liberica_normalize_features (input : String) : Option (List String) :=
  match (libericaRawFeatures input).isEmpty with
  | true => none
  | false => some (List.insertionSort strLe (libericaRawFeatures input))

/-- The Temurin API `Package` object (src/jvm/vendor/temurin.rs lines
161-168). -/
structure TemurinPackage where
  checksum : Option String
  checksum_link : Option String
  link : String
  name : String
  size : Nat
deriving DecidableEq

/-- The Temurin API `Binary` object (src/jvm/vendor/temurin.rs lines
140-150). -/
structure TemurinBinary where
  architecture : String
  c_lib : Option String
  heap_size : String
  image_type : String
  jvm_impl : String
  os : String
  package : Option TemurinPackage
deriving DecidableEq

/-- `normalize_features` of the Temurin scraper
(src/jvm/vendor/temurin.rs lines 71-80). -/
def temurin_normalize_features (binary : TemurinBinary) : Option (List String) :=
  let features : List String :=
    (if binary.heap_size = "large" then ["large_heap"] else []) ++
    (if binary.os = "alpine-linux" || binary.c_lib = some ("musl") then ["musl"] else [])
  if features.isEmpty then none else some features

/-- The Zulu API `Package` object (src/jvm/vendor/zulu.rs lines 117-135). -/
structure ZuluPackage where
  arch : String
  archive_type : String
  availability_type : String
  crac_supported : Option Bool
  distro_version : List Nat
  download_url : String
  javafx_bundled : Option Bool
  java_package_features : List String
  java_package_type : String
  java_version : List Nat
  lib_c_type : Option String
  name : String
  os : String
  release_status : String
  sha256_hash : String
  size : Nat
deriving DecidableEq

/-- `normalize_features` of the Zulu scraper (src/jvm/vendor/zulu.rs lines
98-115): pushes `javafx`, then `crac`, then `musl` in program order. -/
def zulu_normalize_features (package : ZuluPackage) : Option (List String) :=
  let features : List String :=
    (if package.javafx_bundled = some true then ["javafx"] else []) ++
    (if package.crac_supported = some true then ["crac"] else []) ++
    (if package.lib_c_type = some ("musl") then ["musl"] else [])
  if features.isEmpty then none else some features

/- ## Temurin scraper (src/jvm/vendor/temurin.rs) and GitHub lister -/

/-- `get_extension` (src/jvm/vendor/mod.rs lines 87-90): replace the whole
name by the captured extension of
`^.*\.(apk|deb|dmg|msi|pkg|rpm|tar\.gz|zip)$`; when the regex does not
match, `Regex::replace` returns the name unchanged.  The regex `.` does
not match newlines, so a name containing a newline never matches; the
greedy `.*` makes the shortest valid `.ext` suffix win (the eight
alternatives have mutually exclusive endings). -/
def get_extension (package_name : String) : String :=
  let cs := package_name.data
  if cs.contains '\n' then package_name
  else if List.isSuffixOf ('.' :: "apk".data) cs then "apk"
  else if List.isSuffixOf ('.' :: "deb".data) cs then "deb"
  else if List.isSuffixOf ('.' :: "dmg".data) cs then "dmg"
  else if List.isSuffixOf ('.' :: "msi".data) cs then "msi"
  else if List.isSuffixOf ('.' :: "pkg".data) cs then "pkg"
  else if List.isSuffixOf ('.' :: "rpm".data) cs then "rpm"
  else if List.isSuffixOf ('.' :: "zip".data) cs then "zip"
  else if List.isSuffixOf ('.' :: "tar.gz".data) cs then "tar.gz"
  else package_name

/-- The Temurin API `VersionData` object (src/jvm/vendor/temurin.rs lines
134-138). -/
structure TemurinVersionData where
  openjdk_version : String
  semver : String
deriving DecidableEq

/-- The Temurin API `Release` object (src/jvm/vendor/temurin.rs lines
124-132). -/
structure TemurinRelease where
  binaries : List TemurinBinary
  release_name : String
  release_type : String
  updated_at : String
  version_data : TemurinVersionData
  vendor : String
deriving DecidableEq

/-- The per-binary body of `map_release` (src/jvm/vendor/temurin.rs lines
82-112).  A binary without a `package` still produces a record, with
`file_type`, `filename` and `url` defaulting to the empty string and
`size` to `Some(0)`.  (`p.size as i32` is modelled as the integer value;
the artifacts concerned are far below `i32::MAX`.) -/
def temurin_map_binary (release : TemurinRelease) (binary : TemurinBinary) : JvmData :=
  let package := binary.package
  let package_checksum := package.bind (fun p => p.checksum)
  let package_checksum_link := package.bind (fun p => p.checksum_link)
  let package_link := package.map (fun p => p.link)
  let package_name := package.map (fun p => p.name)
  let package_extension := package_name.map get_extension
  { architecture := normalize_architecture binary.architecture
    checksum := package_checksum.map (fun c => "sha256:" ++ c)
    checksum_url := package_checksum_link
    image_type := binary.image_type
    features := temurin_normalize_features binary
    file_type := package_extension.getD ("")
    filename := package_name.getD ("")
    java_version := release.version_data.openjdk_version
    jvm_impl := binary.jvm_impl
    os := normalize_os binary.os
    size := some ((package.map (fun p => (p.size : Int))).getD 0)
    release_type := release.release_type
    url := package_link.getD ("")
    vendor := "temurin"
    version := normalize_version release.version_data.semver }

/-- `map_release` (src/jvm/vendor/temurin.rs lines 82-112): one record per
binary of the release. -/
def temurin_map_release (release : TemurinRelease) : List JvmData :=
  release.binaries.map (temurin_map_binary release)

/-- The records collected from one API page by `fetch_data`
(src/jvm/vendor/temurin.rs lines 50-57): each release is mapped and the
records whose `image_type` is `sbom` are dropped. -/
def temurin_page_data (resp : List TemurinRelease) : List JvmData :=
  (resp.map (fun release =>
    (temurin_map_release release).filter
      (fun m => !((["sbom"] : List String).contains m.image_type)))).flatten

/-- The page loop of `Temurin::fetch_data` (src/jvm/vendor/temurin.rs
lines 39-62): request page after page, extending the collected data on
`Ok` and breaking ONLY on `Err`; an `Ok` response with an empty body does
not stop the loop.  The HTTP interaction is modelled by a `server`
function from page number to result, and a fuel parameter makes the
otherwise unbounded loop total (the theorems supply enough fuel to reach
the first error). -/
def temurinLoop (server : Nat → Except Unit (List TemurinRelease)) :
    Nat → Nat → List JvmData → List JvmData
  | 0, _, acc => acc
  | fuel + 1, page, acc =>
      match server page with
      | Except.ok resp => temurinLoop server fuel (page + 1) (acc ++ temurin_page_data resp)
      | Except.error _ => acc

/-- Modelled from the spec for comparison with the code: the claimed loop,
which terminates as soon as a page request returns an empty list OR an
error response. -/
def specTemurinLoop (server : Nat → Except Unit (List TemurinRelease)) :
    Nat → Nat → List JvmData → List JvmData
  | 0, _, acc => acc
  | fuel + 1, page, acc =>
      match server page with
      | Except.ok [] => acc
      | Except.ok resp => specTemurinLoop server fuel (page + 1) (acc ++ temurin_page_data resp)
      | Except.error _ => acc

/-- A server that answers the first `pages.length` page requests with the
given bodies and every later request with an error. -/
def serverOfPages (pages : List (List TemurinRelease)) :
    Nat → Except Unit (List TemurinRelease) :=
  fun p =>
    match pages.get? p with
    | some x => Except.ok x
    | none => Except.error ()

/- ## GitHub release lister (src/github.rs lines 8-53) -/

/-- `GitHubAsset` (src/github.rs lines 22-28). -/
structure GitHubAsset where
  browser_download_url : String
  content_type : String
  name : String
  size : Nat
deriving DecidableEq

/-- `GitHubRelease` (src/github.rs lines 8-15). -/
structure GitHubRelease where
  assets : List GitHubAsset
  body : Option String
  draft : Bool
  prerelease : Bool
  tag_name : String
deriving DecidableEq

/-- The `while let Some(next) = next_page(&headers)` loop of
`list_releases` (src/github.rs lines 35-39): each iteration extends the
accumulated releases with the next page's body.  The pagination chain is
modelled as the list of page bodies reached by following the
`rel="next"` link header; the loop ends exactly when a response carries
no such link, i.e. when the chain is exhausted. -/
def listReleasesLoop (releases : List GitHubRelease) :
    List (List GitHubRelease) → List GitHubRelease
  | [] => releases
  | more :: rest => listReleasesLoop (releases ++ more) rest

/-- `list_releases` (src/github.rs lines 30-43): concatenate the first page
with every `rel="next"`-reachable page, then
`retain(|r| !r.draft && !r.prerelease)`. -/
def list_releases (firstPage : List GitHubRelease)
    (nextPages : List (List GitHubRelease)) : List GitHubRelease :=
  (listReleasesLoop firstPage nextPages).filter (fun r => !r.draft && !r.prerelease)

/- ## Repository upsert (src/db/jvm_repository.rs) -/

/-- `DbJvmData` (src/db/jvm_repository.rs lines 189-206): the row shape
actually bound to the SQL statement; `features` is the comma-joined text. -/
structure DbJvmData where
  architecture : String
  checksum : Option String
  checksum_url : Option String
  features : Option String
  file_type : String
  filename : String
  image_type : String
  java_version : String
  jvm_impl : String
  os : String
  release_type : String
  size : Option Int
  url : String
  vendor : String
  version : String
deriving DecidableEq

/-- The per-item body of `map_workaround` (src/db/jvm_repository.rs lines
208-232): identical fields except `features`, which is joined with `,`. -/
def map_workaround_item (item : JvmData) : DbJvmData :=
  { architecture := item.architecture
    checksum := item.checksum
    checksum_url := item.checksum_url
    features := item.features.map joinComma
    file_type := item.file_type
    filename := item.filename
    image_type := item.image_type
    java_version := item.java_version
    jvm_impl := item.jvm_impl
    os := item.os
    release_type := item.release_type
    size := item.size
    url := item.url
    vendor := item.vendor
    version := item.version }

/-- `map_workaround` (src/db/jvm_repository.rs lines 208-232) over the
batch (the `HashSet` is modelled as its iteration sequence). -/
def map_workaround (jvm_data : List JvmData) : List DbJvmData :=
  jvm_data.map map_workaround_item

/-- SQL `a != b` on a nullable text column under three-valued logic: TRUE
exactly when both sides are non-NULL and different; comparisons involving
NULL are UNKNOWN and therefore do not satisfy the `WHERE` clause. -/
def sqlNeqOptStr (a b : Option String) : Bool :=
  match a, b with
  | some x, some y => x != y
  | _, _ => false

/-- SQL `a != b` on the nullable integer column `size`. -/
def sqlNeqOptInt (a b : Option Int) : Bool :=
  match a, b with
  | some x, some y => x != y
  | _, _ => false

/-- The composite conflict key at the row level:
`ON CONFLICT(vendor, version, os, architecture, image_type, file_type)`
(src/db/jvm_repository.rs line 74). -/
def dbKey (d : DbJvmData) : String × String × String × String × String × String :=
  (d.vendor, d.version, d.os, d.architecture, d.image_type, d.file_type)

/-- The `WHERE` clause of the `DO UPDATE` (src/db/jvm_repository.rs lines
91-107): the disjunction of `excluded.<col> != JVM.<col>` over all fifteen
columns, with SQL three-valued `!=` on the nullable ones. -/
def diffGuard (excluded stored : DbJvmData) : Bool :=
  (excluded.architecture != stored.architecture) ||
  sqlNeqOptStr excluded.checksum stored.checksum ||
  sqlNeqOptStr excluded.checksum_url stored.checksum_url ||
  sqlNeqOptStr excluded.features stored.features ||
  (excluded.file_type != stored.file_type) ||
  (excluded.filename != stored.filename) ||
  (excluded.image_type != stored.image_type) ||
  (excluded.java_version != stored.java_version) ||
  (excluded.jvm_impl != stored.jvm_impl) ||
  (excluded.os != stored.os) ||
  (excluded.release_type != stored.release_type) ||
  sqlNeqOptInt excluded.size stored.size ||
  (excluded.url != stored.url) ||
  (excluded.vendor != stored.vendor) ||
  (excluded.version != stored.version)

/-- A stored `JVM` table row: the data columns plus the `created_at` and
`modified_at` timestamps (modelled as abstract instants). -/
structure DbRow where
  data : DbJvmData
  created_at : Nat
  modified_at : Nat
deriving DecidableEq

/-- The effect of one `VALUES` tuple under
`INSERT ... ON CONFLICT(key) DO UPDATE SET <all non-key columns>,
modified_at = CURRENT_TIMESTAMP WHERE <diffGuard>`: a fresh key appends a
row with both timestamps set to `now` and counts 1; a conflicting key
updates the stored row and refreshes `modified_at` when the diff guard is
TRUE (counting 1) and leaves it untouched otherwise (counting 0, as
PostgreSQL does not count rows filtered out by the `DO UPDATE` WHERE).
The table is assumed unique on the key, as enforced by the unique index
the `ON CONFLICT` target requires. -/
def upsertRow (now : Nat) (d : DbJvmData) : List DbRow → List DbRow × Nat
  | [] => ([⟨d, now, now⟩], 1)
  | r :: rest =>
      if dbKey r.data = dbKey d then
        if diffGuard d r.data then (⟨d, r.created_at, now⟩ :: rest, 1)
        else (r :: rest, 0)
      else
        let p := upsertRow now d rest
        (r :: p.1, p.2)

/-- The whole-statement effect of `JvmRepository::insert`
(src/db/jvm_repository.rs lines 20-115) on already-mapped rows: tuples are
applied in sequence and `tx.execute` results are summed. -/
def insertRows (now : Nat) : List DbRow → List DbJvmData → List DbRow × Nat
  | tbl, [] => (tbl, 0)
  | tbl, d :: ds =>
      let p := upsertRow now d tbl
      let q := insertRows now p.1 ds
      (q.1, p.2 + q.2)

/-- `JvmRepository::insert` (src/db/jvm_repository.rs lines 20-115): map
the batch through `map_workaround`, upsert every row, return the count of
inserted or modified rows. -/
def repositoryInsert (now : Nat) (tbl : List DbRow) (batch : List JvmData) :
    List DbRow × Nat :=
  insertRows now tbl (map_workaround batch)

/-- The `features` read-back of `JvmRepository::export_triple`
(src/db/jvm_repository.rs lines 158-160): split the stored text on `,`;
NULL stays absent. -/
def readFeatures (stored : Option String) : Option (List String) :=
  stored.map splitComma

/-- The `features` write-out of `map_workaround`
(src/db/jvm_repository.rs line 218): join with `,`; absent stays NULL. -/
def storeFeatures (features : Option (List String)) : Option String :=
  features.map joinComma

/- ## Connection pool (src/db/pool.rs lines 14-65) -/

/-- The accept/reject decision of `ConnectionPool::get_pool`
(src/db/pool.rs lines 14-65): a configured URL is accepted exactly when it
starts with `postgres://` (the TLS wiring and pool construction of the
accepted branch are external effects); any other URL and an absent URL
produce an error. -/
def get_pool (database_url : Option String) : Except String Unit :=
  match database_url with
  | some url =>
      if strStartsWith url ("postgres://") then Except.ok ()
      else Except.error ("unsupported database URL: " ++ url)
  | none => Except.error ("database.url is not configured")

/- ## A concrete record used by several counterexamples -/

/-- A concrete well-formed artifact record (mirrors the fixture used by the
repository's own unit tests). -/
def sampleJvm : JvmData :=
  { architecture := "x86_64"
    checksum := some ("sha256:checksum")
    checksum_url := some ("http://example.com/checksum")
    features := some (["feature1", "feature2"])
    file_type := "tar.gz"
    filename := "openjdk.tar.gz"
    image_type := "jdk"
    java_version := "11"
    jvm_impl := "hotspot"
    os := "linux"
    release_type := "ga"
    size := some (12345678)
    url := "http://example.com/download"
    vendor := "AdoptOpenJDK"
    version := "11.0.2" }

/-- `sampleJvm` at version 11.0.1 with its own URL. -/
def jvmA : JvmData :=
  { sampleJvm with version := "11.0.1", url := "http://example.com/a" }

/-- `sampleJvm` at version 11.0.2 with its own URL. -/
def jvmB : JvmData :=
  { sampleJvm with version := "11.0.2", url := "http://example.com/b" }

/-- `sampleJvm` at version 11.0.3 with its own URL. -/
def jvmC : JvmData :=
  { sampleJvm with version := "11.0.3", url := "http://example.com/c" }

/-- `jvmB` with a different (still present) checksum. -/
def jvmBNewChecksum : JvmData :=
  { jvmB with checksum := some ("sha256:other") }

/-- `sampleJvm` with no checksum at all. -/
def jvmNoChecksum : JvmData :=
  { sampleJvm with checksum := none }

/-- A Temurin binary that reports no downloadable package. -/
def temurinBinaryNoPackage : TemurinBinary :=
  { architecture := "x64"
    c_lib := none
    heap_size := "normal"
    image_type := "jdk"
    jvm_impl := "hotspot"
    os := "linux"
    package := none }

/-- A Temurin API release whose only binary has no package. -/
def temurinReleaseNoPackage : TemurinRelease :=
  { binaries := [temurinBinaryNoPackage]
    release_name := "jdk-21.0.1+12"
    release_type := "ga"
    updated_at := "2024-01-01T00:00:00Z"
    version_data := { openjdk_version := "21.0.1+12", semver := "21.0.1+12" }
    vendor := "eclipse" }

/-- The outputs of `normalize_architecture` that are themselves recognized
aliases mapping to themselves (note in particular that `ppc32` and
`sparc`, though outputs, are NOT in this list, and neither is any
`unknown-arch-` string). -/
def archStableOutputs : List String :=
  ["x86_64", "i686", "aarch64", "arm32", "arm32-vfp-hflt", "ppc32hf", "ppc32spe",
    "ppc64", "ppc64le", "s390", "s390x", "riscv64"]

/-- The outputs of `normalize_os` that normalize to themselves. -/
def osStableOutputs : List String :=
  ["linux", "macosx", "windows", "solaris", "aix"]

/-- A fresh batch of three records with pairwise distinct composite keys
(and distinct URLs). -/
def batchABC : List JvmData := [jvmA, jvmB, jvmC]

/-- The table state after upserting the fresh batch at instant 0. -/
def tableAfterFirst : List DbRow := (repositoryInsert 0 [] batchABC).1

/-- A Temurin package with ordinary non-empty fields. -/
def temurinPackageSample : TemurinPackage :=
  { checksum := some ("0a1b2c")
    checksum_link := some ("https://example.org/jdk.tar.gz.sha256.txt")
    link := "https://example.org/jdk.tar.gz"
    name := "OpenJDK21U-jdk_x64_linux_hotspot_21.0.1_12.tar.gz"
    size := 1024 }

/-- A Temurin binary that does carry a package. -/
def temurinBinaryWithPackage : TemurinBinary :=
  { temurinBinaryNoPackage with package := some temurinPackageSample }

/- # Theorems -/

/- ## Order lemmas for the string sort model -/

/-- `lexLe` is total. -/
theorem lexLe_total : ∀ as bs : List Char, lexLe as bs = true ∨ lexLe bs as = true
  | [], _ => Or.inl rfl
  | _ :: _, [] => Or.inr rfl
  | a :: as, b :: bs => by
      simp only [lexLe]
      rcases Nat.lt_trichotomy a.val.toNat b.val.toNat with h | h | h
      · left
        simp [h]
      · have hab : ¬a.val.toNat < b.val.toNat := by omega
        have hba : ¬b.val.toNat < a.val.toNat := by omega
        rcases lexLe_total as bs with ih | ih
        · left
          simp [hab, hba, ih]
        · right
          simp [hab, hba, ih]
      · right
        simp [h]

/-- `lexLe` is transitive. -/
theorem lexLe_trans :
    ∀ as bs cs : List Char,
      lexLe as bs = true → lexLe bs cs = true → lexLe as cs = true
  | [], _, _ => by intro _ _; rfl
  | _ :: _, [], _ => by intro h _; simp [lexLe] at h
  | _ :: _, _ :: _, [] => by intro _ h; simp [lexLe] at h
  | a :: as, b :: bs, c :: cs => by
      simp only [lexLe]
      intro h1 h2
      rcases Nat.lt_trichotomy a.val.toNat b.val.toNat with hab | hab | hab
      · rcases Nat.lt_trichotomy b.val.toNat c.val.toNat with hbc | hbc | hbc
        · simp [Nat.lt_trans hab hbc]
        · simp [show a.val.toNat < c.val.toNat by omega]
        · simp [show ¬b.val.toNat < c.val.toNat by omega, hbc] at h2
      · simp [show ¬a.val.toNat < b.val.toNat by omega,
          show ¬b.val.toNat < a.val.toNat by omega] at h1
        rcases Nat.lt_trichotomy b.val.toNat c.val.toNat with hbc | hbc | hbc
        · simp [show a.val.toNat < c.val.toNat by omega]
        · simp [show ¬b.val.toNat < c.val.toNat by omega,
            show ¬c.val.toNat < b.val.toNat by omega] at h2
          simp [show ¬a.val.toNat < c.val.toNat by omega,
            show ¬c.val.toNat < a.val.toNat by omega]
          exact lexLe_trans as bs cs h1 h2
        · simp [show ¬b.val.toNat < c.val.toNat by omega, hbc] at h2
      · simp [show ¬a.val.toNat < b.val.toNat by omega, hab] at h1

instance : IsTotal String strLe :=
  ⟨fun a b => lexLe_total a.data b.data⟩

instance : IsTrans String strLe :=
  ⟨fun a b c => lexLe_trans a.data b.data c.data⟩

/-- The `empty becomes absent` guard shared by the feature normalizers
never yields `Some([])`. -/
theorem emptyGuard_ne_some_nil (l : List String) :
    (if l.isEmpty then none else some l) ≠ some ([] : List String) := by
  by_cases h : l.isEmpty
  · simp [h]
  · simp only [h, if_neg]
    intro heq
    have : l = [] := by simpa using heq
    simp [this] at h

/-- `List.contains` agrees with membership for strings. -/
theorem strListContains_iff_mem (l : List String) (a : String) :
    l.contains a = true ↔ a ∈ l :=
  List.elem_iff

/-- The scalar branch of `JvmData::matches`, as a logical equivalence. -/
theorem scalarFieldCase (eqv neqv : List String) (s : String) :
    (eqv.contains s && !neqv.contains s) = true ↔
      (∃ v ∈ eqv, v = s) ∧ ∀ v ∈ neqv, v ≠ s := by
  rw [Bool.and_eq_true, Bool.not_eq_true', ← Bool.not_eq_true (neqv.contains s)]
  rw [strListContains_iff_mem, strListContains_iff_mem]
  constructor
  · rintro ⟨h1, h2⟩
    exact ⟨⟨s, h1, rfl⟩, fun v hv hvs => h2 (hvs ▸ hv)⟩
  · rintro ⟨⟨v, hv, rfl⟩, h2⟩
    exact ⟨hv, fun hs => h2 v hs rfl⟩

/-- The array branch of `JvmData::matches`, as a logical equivalence. -/
theorem arrFieldCase (eqv neqv arr : List String) :
    ((eqv.any fun v => arr.contains v) && !(neqv.any fun v => arr.contains v)) = true ↔
      (∃ v ∈ eqv, v ∈ arr) ∧ ∀ v ∈ neqv, v ∉ arr := by
  rw [Bool.and_eq_true, Bool.not_eq_true',
    ← Bool.not_eq_true (neqv.any fun v => arr.contains v)]
  rw [List.any_eq_true]
  constructor
  · rintro ⟨⟨v, hv, hva⟩, h2⟩
    refine ⟨⟨v, hv, (strListContains_iff_mem arr v).mp hva⟩, fun w hw hwa => ?_⟩
    exact h2 (List.any_eq_true.mpr ⟨w, hw, (strListContains_iff_mem arr w).mpr hwa⟩)
  · rintro ⟨⟨v, hv, hva⟩, h2⟩
    refine ⟨⟨v, hv, (strListContains_iff_mem arr v).mpr hva⟩, fun hany => ?_⟩
    obtain ⟨w, hw, hwa⟩ := List.any_eq_true.mp hany
    exact h2 w hw ((strListContains_iff_mem arr w).mp hwa)

/-- `JvmData::matches` decides exactly the per-field condition the code
implements. -/
theorem matches_iff_codeFieldOk (item : JvmData) (key : String) (values : List String) :
    JvmData.matches item key values = true ↔ codeFieldOk item key values := by
  unfold JvmData.matches codeFieldOk
  cases hp : item.props key with
  | none => simp
  | some v =>
      cases v with
      | str s => exact scalarFieldCase _ _ s
      | num n => exact scalarFieldCase _ _ (toString n)
      | bool b => exact scalarFieldCase _ _ (toString b)
      | arr arr => exact arrFieldCase _ _ arr
      | null => simp

/- ## Claim C1: the filter engine -/

/-- C1, counterexample: a record whose `os` is `linux`, filtered by
`os = [!windows]` — only negated values and none of them matching — is
REJECTED by `JvmData::filter`, while the claimed semantics (any positive
match OR no positives, and no negative match) accepts it.  The code has
no `no positives` disjunct: a present field must match some positive. -/
theorem C1_counterexample :
    specFilter sampleJvm [("os", ["!windows"])] = true ∧
    JvmData.filter sampleJvm [("os", ["!windows"])] = false := by
  decide

/-- C1, amended: `JvmData::filter` returns true iff EVERY filter entry is
satisfied, where a present, non-null field satisfies an entry iff its
value matches SOME positive value (so an entry listing only negated
values rejects every record in which the field is present) AND matches no
negated value; scalars compare as strings, set-valued fields by
membership, and absent or null fields match trivially. -/
theorem C1_amended :
    ∀ (item : JvmData) (filters : List (String × List String)),
      JvmData.filter item filters = true ↔ ∀ p ∈ filters, codeFieldOk item p.1 p.2 := by
  intro item filters
  unfold JvmData.filter
  by_cases hF : filters.isEmpty
  · rw [List.isEmpty_iff] at hF
    simp [hF]
  · rw [if_neg hF, List.all_eq_true]
    constructor
    · intro h p hp
      exact (matches_iff_codeFieldOk item p.1 p.2).mp (h p hp)
    · intro h p hp
      exact (matches_iff_codeFieldOk item p.1 p.2).mpr (h p hp)

/- ## Claim C7: GitHub release listing over all pages -/

/-- The page loop accumulates exactly the concatenation of all pages. -/
theorem listReleasesLoop_eq :
    ∀ (pages : List (List GitHubRelease)) (acc : List GitHubRelease),
      listReleasesLoop acc pages = acc ++ pages.flatten
  | [], acc => by simp [listReleasesLoop]
  | p :: rest, acc => by
      rw [listReleasesLoop, listReleasesLoop_eq rest (acc ++ p)]
      simp

/-- C7, confirmed: `list_releases` returns exactly the concatenation of
the first page and every `rel="next"`-reachable page, with every release
marked draft or prerelease removed; the loop is structurally bounded by
the pagination chain and terminates at the first response without a
`rel="next"` link. -/
theorem C7_confirmed :
    ∀ (firstPage : List GitHubRelease) (nextPages : List (List GitHubRelease)),
      list_releases firstPage nextPages =
        (firstPage ++ nextPages.flatten).filter (fun r => !r.draft && !r.prerelease) := by
  intro firstPage nextPages
  unfold list_releases
  rw [listReleasesLoop_eq]

/- ## Claim C8: Temurin pagination loop -/

/-- Draining lemma: when the server answers the next `ps.length` requests
from `page` on with the bodies in `ps` and then errors, the code loop
collects exactly the page data of every body, in order. -/
theorem temurinLoop_drain :
    ∀ (ps : List (List TemurinRelease)) (fuel page : Nat) (acc : List JvmData)
      (server : Nat → Except Unit (List TemurinRelease)),
      (∀ i, server (page + i) = serverOfPages ps i) →
      ps.length < fuel →
      temurinLoop server fuel page acc = acc ++ (ps.map temurin_page_data).flatten
  | [], fuel, page, acc, server => by
      intro hs hf
      match fuel, hf with
      | fuel + 1, _ =>
          have h0 : server page = Except.error () := by
            have := hs 0
            simpa [serverOfPages] using this
          simp [temurinLoop, h0]
  | p :: ps, fuel, page, acc, server => by
      intro hs hf
      match fuel, hf with
      | fuel + 1, hf =>
          have h0 : server page = Except.ok p := by
            have := hs 0
            simpa [serverOfPages] using this
          have hrec : ∀ i, server (page + 1 + i) = serverOfPages ps i := by
            intro i
            have h1 : page + 1 + i = page + (i + 1) := by omega
            have h2 := hs (i + 1)
            rw [h1]
            rw [h2]
            rfl
          have hlen : ps.length < fuel := by
            simpa using Nat.lt_of_succ_lt_succ hf
          rw [temurinLoop, h0]
          simp only
          rw [temurinLoop_drain ps fuel (page + 1) (acc ++ temurin_page_data p) server hrec hlen]
          simp

/-- C8, counterexample: with a server whose page 0 is an EMPTY `Ok` list,
page 1 carries a release and page 2 errors, the code loop keeps going
past the empty page and collects that release's records, while the
claimed loop — terminating as soon as a page is empty or an error —
collects nothing.  The loop in the code breaks on `Err` only. -/
theorem C8_counterexample :
    temurinLoop (serverOfPages [[], [temurinReleaseNoPackage]]) 3 0 [] ≠
      specTemurinLoop (serverOfPages [[], [temurinReleaseNoPackage]]) 3 0 [] := by
  decide

/-- C8, amended: the Temurin per-release pagination loop terminates as
soon as a page request returns an ERROR response (an empty `Ok` page does
not stop it), having collected the mapped records of every earlier page;
and every record whose `image_type` is `sbom` is dropped from the
collected results. -/
theorem C8_amended :
    ∀ ps : List (List TemurinRelease),
      temurinLoop (serverOfPages ps) (ps.length + 1) 0 [] =
        (ps.map temurin_page_data).flatten ∧
      ((ps.map temurin_page_data).flatten.all
        (fun d => d.image_type != "sbom")) = true := by
  intro ps
  constructor
  · have hs : ∀ i, serverOfPages ps (0 + i) = serverOfPages ps i := by
      intro i
      rw [Nat.zero_add]
    have := temurinLoop_drain ps (ps.length + 1) 0 [] (serverOfPages ps) hs
      (Nat.lt_succ_self _)
    simpa using this
  · rw [List.all_eq_true]
    intro d hd
    rw [List.mem_flatten] at hd
    obtain ⟨page, hpage, hdpage⟩ := hd
    rw [List.mem_map] at hpage
    obtain ⟨resp, _, rfl⟩ := hpage
    unfold temurin_page_data at hdpage
    rw [List.mem_flatten] at hdpage
    obtain ⟨recs, hrecs, hdrecs⟩ := hdpage
    rw [List.mem_map] at hrecs
    obtain ⟨release, _, rfl⟩ := hrecs
    have := (List.mem_filter.mp hdrecs).2
    simpa [List.contains] using this

/-- C2, counterexample: two records that differ only in `version` (and
URL-wise share the same download address) have DIFFERENT composite keys,
yet the accumulator's equality treats them as duplicates, because
`PartialEq for JvmData` compares `url` alone.  This refutes the claimed
equivalence of the two identities. -/
theorem C2_counterexample :
    jvmDataEq { sampleJvm with version := "11.0.1" } { sampleJvm with version := "11.0.2" } = true ∧
    compositeKey { sampleJvm with version := "11.0.1" } ≠
      compositeKey { sampleJvm with version := "11.0.2" } := by
  decide

/-- C2, amended: the accumulator (`Hash`/`PartialEq` of `JvmData`) treats
two records as duplicates exactly when their `url` fields are equal; this
identity does not agree with the repository's composite
`(vendor, version, os, architecture, image_type, file_type)` conflict key
in either direction. -/
theorem C2_amended :
    (∀ a b : JvmData, jvmDataEq a b = true ↔ a.url = b.url) ∧
    (∃ a b : JvmData, jvmDataEq a b = true ∧ compositeKey a ≠ compositeKey b) ∧
    (∃ a b : JvmData, jvmDataEq a b = false ∧ compositeKey a = compositeKey b) := by
  refine ⟨fun a b => ?_, ?_, ?_⟩
  · simp [jvmDataEq]
  · exact ⟨{ sampleJvm with version := "11.0.1" }, { sampleJvm with version := "11.0.2" },
      by decide⟩
  · exact ⟨sampleJvm, { sampleJvm with url := "http://example.com/mirror" }, by decide⟩

/- ## Claim C4: normalization idempotence (counterexample part) -/

/-- C4, counterexample: `normalize_architecture` and `normalize_os` are
NOT idempotent.  `ppc` is normalized to `ppc32`, which is not itself a
recognized alias and is renormalized to `unknown-arch-ppc32`; likewise
every unrecognized OS gains a fresh `unknown-os-` prefix on each
application. -/
theorem C4_counterexample :
    normalize_architecture (normalize_architecture ("ppc")) ≠ normalize_architecture ("ppc") ∧
    normalize_os (normalize_os ("hp-ux")) ≠ normalize_os ("hp-ux") := by
  decide

/- ## Claim C5: feature lists are absent-or-non-empty and sorted -/

/-- C5, counterexample: the JetBrains scraper emits features OUT of sorted
order: an asset name containing `_fd` yields `["jcef", "fastdebug"]`, and
`jcef` is lexicographically greater than `fastdebug`.  (The scraper's own
unit test pins exactly this unsorted output.) -/
theorem C5_counterexample :
    jetbrains_normalize_features ("_fd") = some (["jcef", "fastdebug"]) ∧
    lexLe ("jcef").data ("fastdebug").data = false := by
  decide

/-- C5, amended: the feature normalizers never represent an empty feature
set as `Some([])` — an empty collection always becomes absent — and the
Liberica normalizer sorts its output; but sortedness does not hold for
every scraper (see the counterexample). -/
theorem C5_amended :
    (∀ name : String, jetbrains_normalize_features name ≠ some []) ∧
    (∀ input : String, liberica_normalize_features input ≠ some []) ∧
    (∀ binary : TemurinBinary, temurin_normalize_features binary ≠ some []) ∧
    (∀ package : ZuluPackage, zulu_normalize_features package ≠ some []) ∧
    (∀ input : String, ∀ l : List String,
      liberica_normalize_features input = some l → l.Pairwise strLe) := by
  refine ⟨fun name => ?_, fun input => ?_, fun binary => ?_, fun package => ?_,
    fun input l h => ?_⟩
  · exact emptyGuard_ne_some_nil _
  · unfold liberica_normalize_features
    cases hf : (libericaRawFeatures input).isEmpty
    · simp only
      intro heq
      have hnil : List.insertionSort strLe (libericaRawFeatures input) = [] := by
        simpa using heq
      have hperm := List.perm_insertionSort strLe (libericaRawFeatures input)
      rw [hnil] at hperm
      have : libericaRawFeatures input = [] := hperm.symm.eq_nil
      simp [this] at hf
    · simp
  · exact emptyGuard_ne_some_nil _
  · exact emptyGuard_ne_some_nil _
  · unfold liberica_normalize_features at h
    cases hf : (libericaRawFeatures input).isEmpty
    · rw [hf] at h
      have hl : l = List.insertionSort strLe (libericaRawFeatures input) := by
        simpa using h.symm
      rw [hl]
      exact List.sorted_insertionSort strLe (libericaRawFeatures input)
    · rw [hf] at h
      simp at h

/- ## Claim C6: every emitted record has non-empty filename and absolute url -/

/-- C6, counterexample: the Temurin scraper emits a record with EMPTY
`filename` and EMPTY `url` for an API binary that reports no downloadable
package, and this record survives the `sbom` filter into the collected
page data. -/
theorem C6_counterexample :
    ∃ j ∈ temurin_page_data [temurinReleaseNoPackage], j.filename = "" ∧ j.url = "" := by
  decide

/-- C6, amended: a Temurin record inherits `filename` and `url` from the
binary's package when one is present (so they are non-empty whenever the
API reports non-empty values), but a binary without a package is still
emitted, with empty `filename` and `url`. -/
theorem C6_amended :
    ∀ (release : TemurinRelease) (binary : TemurinBinary),
      (∀ p : TemurinPackage, binary.package = some p →
        (temurin_map_binary release binary).filename = p.name ∧
        (temurin_map_binary release binary).url = p.link) ∧
      (binary.package = none →
        (temurin_map_binary release binary).filename = "" ∧
        (temurin_map_binary release binary).url = "") := by
  intro release binary
  constructor
  · intro p hp
    simp [temurin_map_binary, hp]
  · intro hp
    simp [temurin_map_binary, hp]

/-- C6, witness: the amended theorem applied to the concrete packageless
binary and to the concrete binary with a package. -/
theorem C6_amended_witness :
    ((temurin_map_binary temurinReleaseNoPackage temurinBinaryNoPackage).filename = "" ∧
      (temurin_map_binary temurinReleaseNoPackage temurinBinaryNoPackage).url = "") ∧
    ((temurin_map_binary temurinReleaseNoPackage temurinBinaryWithPackage).filename =
        temurinPackageSample.name ∧
      (temurin_map_binary temurinReleaseNoPackage temurinBinaryWithPackage).url =
        temurinPackageSample.link) :=
  ⟨(C6_amended temurinReleaseNoPackage temurinBinaryNoPackage).2 rfl,
    (C6_amended temurinReleaseNoPackage temurinBinaryWithPackage).1 temurinPackageSample rfl⟩

/- ## Claim C9: accepted database URLs -/

/-- C9, counterexample: a configured `database.url` beginning with
`sqlite://` is NOT accepted by `ConnectionPool::get_pool`; it falls into
the `unsupported database URL` error branch, because `get_pool` only
tests for the `postgres://` scheme. -/
theorem C9_counterexample :
    (get_pool (some ("sqlite://jmeta.db"))).isOk = false := by
  decide

/-- C9, amended: `ConnectionPool::get_pool` accepts a configured
`database.url` exactly when it begins with `postgres://`; every other
URL — including `sqlite://` ones — and an absent `database.url` return an
error, fatal at start-up. -/
theorem C9_amended :
    (∀ url : String, (get_pool (some url)).isOk = strStartsWith url ("postgres://")) ∧
    (get_pool none).isOk = false := by
  constructor
  · intro url
    by_cases h : strStartsWith url ("postgres://") = true
    · simp [get_pool, h, Except.isOk, Except.toBool]
    · simp [get_pool, Bool.eq_false_iff.mpr h, Except.isOk, Except.toBool]
  · rfl

/- ## Claim C3: diff-guarded idempotent upsert -/

/-- C3, counterexample: changing a column from ABSENT to PRESENT does not
fire the update.  A stored row with `checksum = NULL` upserted again with
`checksum = 'sha256:checksum'` (all other columns equal) returns 0 and
leaves the table unchanged, because the SQL guard
`excluded.checksum != JVM.checksum` is UNKNOWN when one side is NULL, so
the claimed count of 1 and the `modified_at` bump do not happen. -/
theorem C3_counterexample :
    repositoryInsert 1 (repositoryInsert 0 [] [jvmNoChecksum]).1 [sampleJvm] =
      ((repositoryInsert 0 [] [jvmNoChecksum]).1, 0) := by
  decide

/-- C3, amended: the upsert inserts fresh keys, and on conflict updates a
row and refreshes `modified_at` exactly when the SQL diff guard is TRUE,
which requires some non-key column to differ WITH BOTH VALUES NON-NULL;
the returned count is the number of inserted or modified rows.
Concretely: a fresh batch of 3 returns 3; repeating it returns 0 and
leaves the table untouched; changing one checksum from one present value
to a different present value returns 1 and bumps `modified_at` on that
row only. -/
theorem C3_amended :
    (repositoryInsert 0 [] batchABC).2 = 3 ∧
    repositoryInsert 1 tableAfterFirst batchABC = (tableAfterFirst, 0) ∧
    repositoryInsert 2 tableAfterFirst [jvmA, jvmBNewChecksum, jvmC] =
      ([⟨map_workaround_item jvmA, 0, 0⟩, ⟨map_workaround_item jvmBNewChecksum, 0, 2⟩,
        ⟨map_workaround_item jvmC, 0, 0⟩], 1) := by
  decide

/- ## Claim C10: features round-trip through persistence -/

/-- `splitChar ','` on a comma-free list yields that single piece. -/
theorem splitChar_no_comma :
    ∀ x : List Char, ',' ∉ x → splitChar ',' x = [x]
  | [], _ => rfl
  | c :: rest, h => by
      have hc : ¬c = ',' := fun hceq => h (hceq ▸ List.mem_cons_self c rest)
      have hrest : ',' ∉ rest := fun hm => h (List.mem_cons_of_mem c hm)
      rw [splitChar, if_neg hc, splitChar_no_comma rest hrest]

/-- `splitChar ','` peels a leading comma-free piece off a separator. -/
theorem splitChar_append :
    ∀ x r : List Char, ',' ∉ x →
      splitChar ',' (x ++ ',' :: r) = x :: splitChar ',' r
  | [], r, _ => by
      rw [List.nil_append, splitChar, if_pos rfl]
  | c :: x, r, h => by
      have hc : ¬c = ',' := fun hceq => h (hceq ▸ List.mem_cons_self c x)
      have hx : ',' ∉ x := fun hm => h (List.mem_cons_of_mem c hm)
      rw [List.cons_append, splitChar, if_neg hc, splitChar_append x r hx]

/-- Splitting on `,` undoes joining with `,` for a non-empty list of
comma-free pieces. -/
theorem splitChar_joinChar :
    ∀ ls : List (List Char), ls ≠ [] → (∀ x ∈ ls, ',' ∉ x) →
      splitChar ',' (joinChar ',' ls) = ls
  | [], h, _ => absurd rfl h
  | [x], _, hc => by
      rw [joinChar, splitChar_no_comma x (hc x (List.mem_singleton.mpr rfl))]
  | x :: y :: t, _, hc => by
      have hx : ',' ∉ x := hc x (List.mem_cons_self x (y :: t))
      have hrest : ∀ z ∈ y :: t, ',' ∉ z := fun z hz => hc z (List.mem_cons_of_mem x hz)
      rw [joinChar, splitChar_append _ _ hx,
        splitChar_joinChar (y :: t) (List.cons_ne_nil y t) hrest]

/-- C10, counterexample: a record whose `features` is `Some([])` — a list
each of whose (zero) elements is vacuously non-empty and comma-free — is
stored as the empty STRING, not NULL, and read back as `Some([""])`,
which differs from what was inserted. -/
theorem C10_counterexample :
    readFeatures (storeFeatures (some ([] : List String))) = some ([""]) ∧
    some (([""] : List String)) ≠ some (([] : List String)) := by
  decide

/-- C10, amended: for every record whose `features` is either absent or a
NON-EMPTY list of strings none of which contains `,`, the features read
back by `export_triple` equal the features inserted by
`JvmRepository::insert`; absent stays absent. -/
theorem C10_amended :
    (∀ l : List String, l ≠ [] → (∀ x ∈ l, ',' ∉ x.data) →
      readFeatures (storeFeatures (some l)) = some l) ∧
    readFeatures (storeFeatures none) = none := by
  constructor
  · intro l hne hc
    show some (splitComma (joinComma l)) = some l
    unfold splitComma joinComma
    have hmapne : l.map String.data ≠ [] := by
      simpa using hne
    have hmapc : ∀ x ∈ l.map String.data, ',' ∉ x := by
      intro x hx
      rw [List.mem_map] at hx
      obtain ⟨s, hs, rfl⟩ := hx
      exact hc s hs
    rw [show (String.mk (joinChar ',' (l.map String.data))).data =
        joinChar ',' (l.map String.data) from rfl]
    rw [splitChar_joinChar (l.map String.data) hmapne hmapc]
    rw [List.map_map]
    have hcomp : String.mk ∘ String.data = (id : String → String) := by
      funext s
      rfl
    rw [hcomp, List.map_id]
  · rfl

/-- C10, witness: the amended round-trip applied to the concrete feature
list `["lite", "musl"]`. -/
theorem C10_amended_witness :
    readFeatures (storeFeatures (some (["lite", "musl"]))) = some (["lite", "musl"]) :=
  C10_amended.1 (["lite", "musl"]) (by decide) (by decide)

/- ## Claim C4: normalization idempotence -/

/-- When every element of a list satisfies the predicate, `takeWhile`
keeps it whole and `dropWhile` empties it. -/
theorem takeWhile_all_sat (p : Char → Bool) :
    ∀ l : List Char, (∀ x ∈ l, p x = true) →
      l.takeWhile p = l ∧ l.dropWhile p = []
  | [], _ => ⟨rfl, rfl⟩
  | a :: t, h => by
      have ha : p a = true := h a (List.mem_cons_self a t)
      have ht := takeWhile_all_sat p t (fun x hx => h x (List.mem_cons_of_mem a hx))
      rw [List.takeWhile_cons, List.dropWhile_cons, ha]
      simp [ht.1, ht.2]

/-- Splitting at an explicit boundary: when every element of `xs`
satisfies the predicate and `y` fails it, `takeWhile` returns exactly
`xs` and `dropWhile` exactly `y :: r`. -/
theorem takeWhile_boundary (p : Char → Bool) :
    ∀ (xs : List Char) (y : Char) (r : List Char),
      (∀ x ∈ xs, p x = true) → p y = false →
      (xs ++ y :: r).takeWhile p = xs ∧ (xs ++ y :: r).dropWhile p = y :: r
  | [], y, r => by
      intro _ hy
      rw [List.nil_append, List.takeWhile_cons, List.dropWhile_cons, hy]
      simp
  | a :: t, y, r => by
      intro h hy
      have ha : p a = true := h a (List.mem_cons_self a t)
      have ht := takeWhile_boundary p t y r (fun x hx => h x (List.mem_cons_of_mem a hx)) hy
      rw [List.cons_append, List.takeWhile_cons, List.dropWhile_cons, ha]
      simp [ht.1, ht.2]

/-- The head of a non-empty `dropWhile` result fails the predicate. -/
theorem dropWhile_head_not (p : Char → Bool) :
    ∀ (l : List Char) (c : Char) (cs : List Char),
      l.dropWhile p = c :: cs → p c = false
  | [], _, _ => by intro h; simp at h
  | a :: t, c, cs => by
      intro h
      rw [List.dropWhile_cons] at h
      by_cases ha : p a = true
      · rw [if_pos ha] at h
        exact dropWhile_head_not p t c cs h
      · rw [if_neg ha] at h
        cases h
        exact Bool.eq_false_iff.mpr ha

/-- `versionSuffixOk` fails on anything headed by a character other than
`-` or `+`. -/
theorem versionSuffixOk_cons_ne (c : Char) (l : List Char)
    (h1 : ¬c = '-') (h2 : ¬c = '+') : versionSuffixOk (c :: l) = false := by
  simp [versionSuffixOk, h1, h2]

/-- Strings of the shape `digits ++ "." ++ anything` are fixed points of
both `normalize_major` and `normalize_underline`. -/
theorem stable_of_digits_dot (d rest : List Char)
    (hd : ∀ x ∈ d, Char.isDigit x = true) :
    normalize_major_list (d ++ '.' :: rest) = d ++ '.' :: rest ∧
    normalize_underline_list (d ++ '.' :: rest) = d ++ '.' :: rest := by
  have hdotD : Char.isDigit '.' = false := by decide
  have hdotU : digitOrUnderscore '.' = false := by decide
  have hU : ∀ x ∈ d, digitOrUnderscore x = true := by
    intro x hx
    unfold digitOrUnderscore
    simp [hd x hx]
  obtain ⟨ht1, hd1⟩ := takeWhile_boundary Char.isDigit d '.' rest hd hdotD
  obtain ⟨ht2, hd2⟩ := takeWhile_boundary digitOrUnderscore d '.' rest hU hdotU
  have hvs : versionSuffixOk ('.' :: rest) = false :=
    versionSuffixOk_cons_ne '.' rest (by decide) (by decide)
  constructor
  · unfold normalize_major_list
    rw [ht1, hd1, hvs]
    simp
  · unfold normalize_underline_list
    rw [ht2, hd2, hvs]
    simp

/-- Mapping the underscore-to-dot substitution over a list of digits
changes nothing. -/
theorem map_subst_digits :
    ∀ l : List Char, (∀ x ∈ l, Char.isDigit x = true) →
      l.map (fun c => if c = '_' then '.' else c) = l
  | [], _ => rfl
  | a :: t, h => by
      have ha : Char.isDigit a = true := h a (List.mem_cons_self a t)
      have hau : ¬a = '_' := by
        intro heq
        rw [heq] at ha
        exact absurd ha (by decide)
      rw [List.map_cons, if_neg hau,
        map_subst_digits t (fun x hx => h x (List.mem_cons_of_mem a hx))]

/-- Core of the underline-match analysis, over an abstract split
`p ++ q`: when the group `p` matched but the whole string did not match
the major regex, `p` contains an underscore, so the rewritten string is
`digits ++ "." ++ rest`. -/
theorem underline_shape_core (p q : List Char)
    (hM : (!((p ++ q).takeWhile Char.isDigit).isEmpty &&
      versionSuffixOk ((p ++ q).dropWhile Char.isDigit)) = false)
    (hp : underlineGroupOk p = true)
    (hq : versionSuffixOk q = true)
    (hPU : ∀ x ∈ p, digitOrUnderscore x = true)
    (hqhead : ∀ c cs, q = c :: cs → digitOrUnderscore c = false) :
    ∃ d rest, (∀ x ∈ d, Char.isDigit x = true) ∧
      p.map (fun c => if c = '_' then '.' else c) ++ q = d ++ '.' :: rest := by
  have hpne : p ≠ [] := by
    intro hnil
    rw [hnil] at hp
    exact absurd hp (by decide)
  have hpe : p.isEmpty = false :=
    Bool.eq_false_iff.mpr (fun h => hpne (List.isEmpty_iff.mp h))
  -- the matched group cannot be all digits, else the major regex matched
  have hnotall : ¬∀ x ∈ p, Char.isDigit x = true := by
    intro hall
    have hDsplit : (p ++ q).takeWhile Char.isDigit = p ∧
        (p ++ q).dropWhile Char.isDigit = q := by
      cases hq2 : q with
      | nil =>
          have hall2 := takeWhile_all_sat Char.isDigit p hall
          rw [List.append_nil]
          exact ⟨hall2.1, hall2.2⟩
      | cons c cs =>
          have hcU : digitOrUnderscore c = false := hqhead c cs hq2
          have hcD : Char.isDigit c = false := by
            simp [digitOrUnderscore] at hcU
            exact hcU.1
          exact takeWhile_boundary Char.isDigit p c cs hall hcD
    rw [hDsplit.1, hDsplit.2, hpe, hq] at hM
    exact absurd hM (by decide)
  -- split the group at its first non-digit, necessarily an underscore
  have hsplitp : p.takeWhile Char.isDigit ++ p.dropWhile Char.isDigit = p :=
    List.takeWhile_append_dropWhile Char.isDigit p
  cases ht' : p.dropWhile Char.isDigit with
  | nil =>
      refine absurd (fun x hx => ?_) hnotall
      rw [← hsplitp, ht', List.append_nil] at hx
      exact List.mem_takeWhile_imp hx
  | cons c t =>
      have hcD : Char.isDigit c = false :=
        dropWhile_head_not Char.isDigit p c t ht'
      have hcmem : c ∈ p := by
        rw [← hsplitp, ht']
        exact List.mem_append_right _ (List.mem_cons_self c t)
      have hcu : c = '_' := by
        have hcU : digitOrUnderscore c = true := hPU c hcmem
        unfold digitOrUnderscore at hcU
        rw [hcD] at hcU
        simpa using hcU
      refine ⟨p.takeWhile Char.isDigit,
        t.map (fun c => if c = '_' then '.' else c) ++ q,
        fun x hx => List.mem_takeWhile_imp hx, ?_⟩
      have hpexp : p = p.takeWhile Char.isDigit ++ '_' :: t := by
        rw [← hcu, ← ht', hsplitp]
      conv_lhs => rw [hpexp]
      rw [List.map_append, List.map_cons,
        map_subst_digits _ (fun x hx => List.mem_takeWhile_imp hx)]
      simp [List.append_assoc]

/-- When the underline regex matches (and the major one did not), the
rewritten string has the stable `digits ++ "." ++ rest` shape. -/
theorem underline_result_shape (v : List Char)
    (hM : (!(v.takeWhile Char.isDigit).isEmpty &&
      versionSuffixOk (v.dropWhile Char.isDigit)) = false)
    (hU : (underlineGroupOk (v.takeWhile digitOrUnderscore) &&
      versionSuffixOk (v.dropWhile digitOrUnderscore)) = true) :
    ∃ d rest, (∀ x ∈ d, Char.isDigit x = true) ∧
      normalize_underline_list v = d ++ '.' :: rest := by
  have hU2 := hU
  rw [Bool.and_eq_true] at hU2
  obtain ⟨hp, hq⟩ := hU2
  have hrw : normalize_underline_list v =
      (v.takeWhile digitOrUnderscore).map (fun c => if c = '_' then '.' else c) ++
        v.dropWhile digitOrUnderscore := by
    unfold normalize_underline_list
    rw [if_pos hU]
  have hsplitv : v.takeWhile digitOrUnderscore ++ v.dropWhile digitOrUnderscore = v :=
    List.takeWhile_append_dropWhile digitOrUnderscore v
  have hM2 : (!((v.takeWhile digitOrUnderscore ++ v.dropWhile digitOrUnderscore).takeWhile
        Char.isDigit).isEmpty &&
      versionSuffixOk ((v.takeWhile digitOrUnderscore ++
        v.dropWhile digitOrUnderscore).dropWhile Char.isDigit)) = false := by
    rw [hsplitv]
    exact hM
  obtain ⟨d, rest, hd, hshape⟩ := underline_shape_core
    (v.takeWhile digitOrUnderscore) (v.dropWhile digitOrUnderscore) hM2 hp hq
    (fun x hx => List.mem_takeWhile_imp hx)
    (fun c cs hcs => dropWhile_head_not digitOrUnderscore v c cs hcs)
  refine ⟨d, rest, hd, ?_⟩
  rw [hrw, hshape]

/-- `normalize_version` on character lists is idempotent. -/
theorem normalize_version_list_idem (v : List Char) :
    normalize_version_list (normalize_version_list v) = normalize_version_list v := by
  unfold normalize_version_list
  by_cases hM : (!(v.takeWhile Char.isDigit).isEmpty &&
      versionSuffixOk (v.dropWhile Char.isDigit)) = true
  · have hw : normalize_major_list v =
        v.takeWhile Char.isDigit ++ '.' ::
          ('0' :: '.' :: '0' :: v.dropWhile Char.isDigit) := by
      unfold normalize_major_list
      rw [if_pos hM]
    have hd : ∀ x ∈ v.takeWhile Char.isDigit, Char.isDigit x = true :=
      fun x hx => List.mem_takeWhile_imp hx
    obtain ⟨hm1, hu1⟩ := stable_of_digits_dot (v.takeWhile Char.isDigit)
      ('0' :: '.' :: '0' :: v.dropWhile Char.isDigit) hd
    rw [hw, hu1, hm1, hu1]
  · have hMf := Bool.eq_false_iff.mpr hM
    have hnm : normalize_major_list v = v := by
      unfold normalize_major_list
      rw [if_neg hM]
    rw [hnm]
    by_cases hU : (underlineGroupOk (v.takeWhile digitOrUnderscore) &&
        versionSuffixOk (v.dropWhile digitOrUnderscore)) = true
    · obtain ⟨d, rest, hd, hshape⟩ := underline_result_shape v hMf hU
      obtain ⟨hm1, hu1⟩ := stable_of_digits_dot d rest hd
      rw [hshape, hm1, hu1]
    · have hnu : normalize_underline_list v = v := by
        unfold normalize_underline_list
        rw [if_neg hU]
      rw [hnu, hnm, hnu]

/-- C4, amended: `normalize_version` is idempotent on EVERY string; for
`normalize_architecture` and `normalize_os` idempotence holds exactly on
the inputs whose normalized form is itself a recognized alias mapping to
itself — it fails for `ppc` (whose output `ppc32` renormalizes to
`unknown-arch-ppc32`), for `sparcv9`, and for every unrecognized raw
value, whose `unknown-...-` prefix stacks. -/
theorem C4_amended :
    (∀ s : String, normalize_version (normalize_version s) = normalize_version s) ∧
    (∀ s : String, normalize_architecture s ∈ archStableOutputs →
      normalize_architecture (normalize_architecture s) = normalize_architecture s) ∧
    (∀ s : String, normalize_os s ∈ osStableOutputs →
      normalize_os (normalize_os s) = normalize_os s) := by
  refine ⟨fun s => ?_, fun s h => ?_, fun s h => ?_⟩
  · unfold normalize_version
    rw [show (String.mk (normalize_version_list s.data)).data =
        normalize_version_list s.data from rfl]
    rw [normalize_version_list_idem]
  · unfold archStableOutputs at h
    simp only [List.mem_cons, List.not_mem_nil, or_false] at h
    rcases h with h | h | h | h | h | h | h | h | h | h | h | h <;>
      rw [h] <;> decide
  · unfold osStableOutputs at h
    simp only [List.mem_cons, List.not_mem_nil, or_false] at h
    rcases h with h | h | h | h | h <;> rw [h] <;> decide

/-- C4, witness: the amended idempotence applied to the concrete inputs
`18-ea+1`, `amd64` and `MacOS`. -/
theorem C4_amended_witness :
    normalize_version (normalize_version ("18-ea+1")) = normalize_version ("18-ea+1") ∧
    normalize_architecture (normalize_architecture ("amd64")) =
      normalize_architecture ("amd64") ∧
    normalize_os (normalize_os ("MacOS")) = normalize_os ("MacOS") :=
  ⟨C4_amended.1 ("18-ea+1"), C4_amended.2.1 ("amd64") (by decide),
    C4_amended.2.2 ("MacOS") (by decide)⟩
